import Mathlib

/-!
Shallow embedding of `src/processing/conv.rs` from ndarray-vision: the
convolution engine (`kernel_centre`, `conv2d`, `conv2d_inplace`) acting on
3-axis numeric volumes, together with theorems checking the specification's
claims about it.

Machine integers: the Rust code indexes with `usize`; we model indices as
`Nat`, and every `usize` subtraction that can overflow (panic in Rust) is
modelled explicitly with `Option` (`none` = panic / abort, never a normal
return). Element arithmetic is generic over a type with `+`, `*`, `0`,
mirroring the `T: Num + NumAssignOps` bound.
-/

namespace NVision

/-- The error enum of `crate::processing::Error` as used by `conv.rs`. -/
inductive Error where
  | channelDimensionMismatch
  | invalidDimensions
deriving DecidableEq, Repr

/-- An `ndarray::Array3<T>` value: axes (rows, cols, channels), with the
standard row-major (C-order) flat memory `data`; a well-formed array has
`data.length = rows * cols * channels` (see `Volume.WF`). -/
structure Volume (α : Type) where
  rows : Nat
  cols : Nat
  channels : Nat
  data : List α
deriving DecidableEq, Repr

namespace Volume

variable {α : Type}

/-- ndarray's invariant for an owned `Array3`: the flat buffer length is the
product of the axis lengths. -/
def WF (v : Volume α) : Prop :=
  v.data.length = v.rows * v.cols * v.channels

instance (v : Volume α) : Decidable v.WF := by
  unfold WF; infer_instance

/-- Row-major flat offset of the logical index `(i, j, ch)`. -/
def flatIdx (v : Volume α) (i j ch : Nat) : Nat :=
  (i * v.cols + j) * v.channels + ch

/-- Bounds-checked element access: models ndarray's `.get((i, j, ch))`. -/
def get (v : Volume α) (i j ch : Nat) : Option α :=
  if i < v.rows ∧ j < v.cols ∧ ch < v.channels then v.data[v.flatIdx i j ch]? else none

/-- Total element access (defaulting to 0 out of bounds); used to state
properties of in-bounds elements. -/
def el [Zero α] (v : Volume α) (i j ch : Nat) : α :=
  (v.data[v.flatIdx i j ch]?).getD 0

end Volume

/-- One axis of `kernel_centre`: `size / 2 - ((size % 2 == 0) as usize)`.
The `usize` subtraction overflows (Rust panic, modelled `none`) exactly when
`size / 2 < 1` with `size` even, i.e. `size = 0`. -/
def centreOffset (size : Nat) : Option Nat :=
  let evenAdj := if size % 2 = 0 then 1 else 0
  if size / 2 < evenAdj then none else some (size / 2 - evenAdj)

/-- `kernel_centre(rows, cols)` from `conv.rs`: the per-axis offsets of the
kernel element treated as the centre. -/
def kernel_centre (rows cols : Nat) : Option (Nat × Nat) := do
  let row_offset ← centreOffset rows
  let col_offset ← centreOffset cols
  pure (row_offset, col_offset)

/-- The set of top-left window positions produced by
`self.windows(kernel.dim())`: ndarray yields a window with top-left `(i, j)`
exactly when the kernel-shaped window lies inside the input. -/
def fits (input kernel : Volume α) (i j : Nat) : Prop :=
  i + kernel.rows ≤ input.rows ∧ j + kernel.cols ≤ input.cols

instance (input kernel : Volume α) (i j : Nat) : Decidable (fits input kernel i j) := by
  unfold fits; infer_instance

/-- The per-channel reduction of one window: `&window * &kernel` elementwise,
then `.sum_axis(Axis(0)).sum_axis(Axis(0))` — the first sum collapses the row
axis, the second the (former) column axis, so per channel this is the sum over
kernel columns of sums over kernel rows. -/
def windowSum [Mul α] [Add α] [Zero α] (input kernel : Volume α) (i j ch : Nat) : α :=
  ((List.range kernel.cols).map (fun c =>
    ((List.range kernel.rows).map (fun r =>
      input.el (i + r) (j + c) ch * kernel.el r c ch)).sum)).sum

/-- One element of the result buffer: window positions receive their window
reduction via `result.slice_mut(s![i, j, ..]).assign(&sums)`; all other
elements keep the `zeros` initialisation. (In the successful branch of
`conv2d` every window position lies inside the result: see
`fits_lt_out_rows` below.) -/
def outElem [Mul α] [Add α] [Zero α] (input kernel : Volume α) (i j ch : Nat) : α :=
  if fits input kernel i j then windowSum input kernel i j ch else 0

/-- The flat row-major data of the `conv2d` result of shape
`(outR, outC, input.channels)`. -/
def convData [Mul α] [Add α] [Zero α] (input kernel : Volume α) (outR outC : Nat) : List α :=
  (List.range (outR * outC * input.channels)).map (fun p =>
    outElem input kernel (p / (outC * input.channels)) (p / input.channels % outC)
      (p % input.channels))

/-- `conv2d` from `conv.rs`.

`none` models a panic: either the `usize` overflow inside `kernel_centre`,
or the overflow of `self.shape()[0] - row_offset * 2` /
`self.shape()[1] - col_offset * 2` when the (centred) kernel is strictly
larger than the input (in release builds the wrapped shape makes the
subsequent `zeros` allocation abort instead; either way no `Result` is
returned). -/
def conv2d [Mul α] [Add α] [Zero α] (input kernel : Volume α) :
    Option (Except Error (Volume α)) :=
  if input.channels ≠ kernel.channels then
    some (Except.error Error.channelDimensionMismatch)
  else
    match kernel_centre kernel.rows kernel.cols with
    | none => none
    | some (row_offset, col_offset) =>
      if input.rows < row_offset * 2 ∨ input.cols < col_offset * 2 then
        none
      else
        if 0 < input.rows - row_offset * 2 ∧ 0 < input.cols - col_offset * 2 then
          some (Except.ok ⟨input.rows - row_offset * 2, input.cols - col_offset * 2,
            input.channels,
            convData input kernel (input.rows - row_offset * 2) (input.cols - col_offset * 2)⟩)
        else
          some (Except.error Error.invalidDimensions)

/-- `self.indexed_iter_mut()`: each flat position paired with its stored
element, in order; structural recursion carrying the running flat index. -/
def mapIdxFrom (f : Nat → α → α) : Nat → List α → List α
  | _, [] => []
  | n, a :: l => f n a :: mapIdxFrom f (n + 1) l

/-- The body of one `indexed_iter_mut` step of `conv2d_inplace`: `p` is the
flat position and `v` the element stored there; `(r, c, ch)` is its logical
index (decoded from `p` for the standard layout). Border elements with
`r < centre.0` or `c < centre.1` are skipped (`continue`); otherwise the
element is overwritten by `data.get(centred)` when that index is in bounds
and kept otherwise. -/
def inplaceStep (data : Volume α) (cols channels : Nat) (centre : Nat × Nat)
    (p : Nat) (v : α) : α :=
  if p / (cols * channels) < centre.1 ∨ p / channels % cols < centre.2 then v
  else
    match data.get (p / (cols * channels) - centre.1)
        (p / channels % cols - centre.2) (p % channels) with
    | some d => d
    | none => v

/-- The whole write-back loop of `conv2d_inplace`. -/
def inplaceWrite (input data : Volume α) (centre : Nat × Nat) : Volume α :=
  { input with
    data := mapIdxFrom (inplaceStep data input.cols input.channels centre) 0 input.data }

/-- `conv2d_inplace` from `conv.rs`, with the mutation made explicit: the
returned pair is the `Result<(), Error>` together with the final contents of
`self`. On error the `?` operator returns before any write, so `self` is
returned unchanged. -/
def conv2d_inplace [Mul α] [Add α] [Zero α] (input kernel : Volume α) :
    Option (Except Error Unit × Volume α) :=
  match conv2d input kernel with
  | none => none
  | some (Except.error e) => some (Except.error e, input)
  | some (Except.ok data) =>
    match kernel_centre kernel.rows kernel.cols with
    | none => none
    | some centre => some (Except.ok (), inplaceWrite input data centre)

/-! ### Concrete volumes (from the crate's own tests) used as witnesses -/

/-- The 5×5 single-channel input of the `basic_conv` test. -/
def input5 : Volume Nat :=
  ⟨5, 5, 1, [1,1,1,0,0, 0,1,1,1,0, 0,0,1,1,1, 0,0,1,1,0, 0,1,1,0,0]⟩

/-- The 3×3×1 cross kernel of the `basic_conv` test. -/
def kern3 : Volume Nat := ⟨3, 3, 1, [1,0,1, 0,1,0, 1,0,1]⟩

/-- The expected 3×3 result of the `basic_conv` test. -/
def out3 : Volume Nat := ⟨3, 3, 1, [4,3,4, 2,4,3, 2,3,4]⟩

/-- The expected 5×5 buffer of the `basic_conv_inplace` test. -/
def inplace5 : Volume Nat :=
  ⟨5, 5, 1, [1,1,1,0,0, 0,4,3,4,0, 0,2,4,3,1, 0,2,3,4,0, 0,1,1,0,0]⟩

/-- A 1×1 single-channel input (smaller than `kern3` by ≥ 2 per axis). -/
def input1 : Volume Nat := ⟨1, 1, 1, [5]⟩

/-- A 2×5 single-channel input (`conv2d` with `kern3` gives a 0-row shape). -/
def input2x5 : Volume Nat := ⟨2, 5, 1, [0,1,2,3,4, 5,6,7,8,9]⟩

/-- A 2×2 single-channel input. -/
def input2x2 : Volume Nat := ⟨2, 2, 1, [1,2,3,4]⟩

/-- A 3×3 single-channel input. -/
def input3x3 : Volume Nat := ⟨3, 3, 1, [1,2,3, 4,5,6, 7,8,9]⟩

/-- An even 2×2×1 kernel of ones. -/
def kern2 : Volume Nat := ⟨2, 2, 1, [1,1,1,1]⟩

/-- The `conv2d` result of `input3x3` with `kern2`: the 2×2 window sums land
at positions (0,0)–(1,1); the last row and column keep the zero fill. -/
def outEven : Volume Nat := ⟨3, 3, 1, [12,16,0, 24,28,0, 0,0,0]⟩

/-- A kernel with 2 channels (mismatching every 1-channel input). -/
def kern2ch : Volume Nat := ⟨3, 3, 2, List.replicate 18 1⟩

/-- The `conv2d` result of `input2x2` with `kern2`: a 2×2 output but only
one window position, so three elements keep the zero fill. -/
def outSmall : Volume Nat := ⟨2, 2, 1, [10, 0, 0, 0]⟩

/-! ### Helper lemmas -/

variable {α : Type}

lemma centreOffset_pos {n : Nat} (h : 0 < n) :
    centreOffset n = some (n / 2 - (if n % 2 = 0 then 1 else 0)) := by
  unfold centreOffset
  by_cases he : n % 2 = 0
  · simp only [he, if_true]
    rw [if_neg (by omega)]
  · simp only [he, if_false]
    rw [if_neg (by omega)]

lemma kernel_centre_pos {rows cols : Nat} (hr : 0 < rows) (hc : 0 < cols) :
    kernel_centre rows cols =
      some (rows / 2 - (if rows % 2 = 0 then 1 else 0),
            cols / 2 - (if cols % 2 = 0 then 1 else 0)) := by
  unfold kernel_centre
  rw [centreOffset_pos hr, centreOffset_pos hc]
  rfl

lemma decode_flatIdx {cols channels i j ch : Nat} (hj : j < cols) (hch : ch < channels) :
    ((i * cols + j) * channels + ch) / (cols * channels) = i ∧
    ((i * cols + j) * channels + ch) / channels % cols = j ∧
    ((i * cols + j) * channels + ch) % channels = ch := by
  have hch0 : 0 < channels := Nat.lt_of_le_of_lt (Nat.zero_le _) hch
  have hc0 : 0 < cols := Nat.lt_of_le_of_lt (Nat.zero_le _) hj
  have hdiv : ((i * cols + j) * channels + ch) / channels = i * cols + j := by
    rw [Nat.mul_comm (i * cols + j) channels, Nat.mul_add_div hch0]
    simp [Nat.div_eq_of_lt hch]
  refine ⟨?_, ?_, ?_⟩
  · rw [Nat.mul_comm cols channels, ← Nat.div_div_eq_div_mul, hdiv,
      Nat.mul_comm i cols, Nat.mul_add_div hc0, Nat.div_eq_of_lt hj]
    omega
  · rw [hdiv, Nat.mul_comm i cols, Nat.mul_add_mod, Nat.mod_eq_of_lt hj]
  · rw [Nat.mul_comm (i * cols + j) channels, Nat.mul_add_mod, Nat.mod_eq_of_lt hch]

lemma flatIdx_lt {outR outC channels i j ch : Nat}
    (hi : i < outR) (hj : j < outC) (hch : ch < channels) :
    (i * outC + j) * channels + ch < outR * outC * channels := by
  have h1 : i * outC + j + 1 ≤ outR * outC := by
    calc i * outC + j + 1 ≤ i * outC + outC := by omega
    _ = (i + 1) * outC := by ring
    _ ≤ outR * outC := Nat.mul_le_mul_right _ hi
  calc (i * outC + j) * channels + ch < (i * outC + j) * channels + channels := by omega
  _ = (i * outC + j + 1) * channels := by ring
  _ ≤ outR * outC * channels := Nat.mul_le_mul_right _ h1

lemma convData_length [Mul α] [Add α] [Zero α] (input kernel : Volume α) (outR outC : Nat) :
    (convData input kernel outR outC).length = outR * outC * input.channels := by
  unfold convData
  rw [List.length_map, List.length_range]

lemma convData_getElem? [Mul α] [Add α] [Zero α] {input kernel : Volume α} {outR outC : Nat}
    {i j ch : Nat} (hi : i < outR) (hj : j < outC) (hch : ch < input.channels) :
    (convData input kernel outR outC)[(i * outC + j) * input.channels + ch]? =
      some (outElem input kernel i j ch) := by
  unfold convData
  rw [List.getElem?_map, List.getElem?_range (flatIdx_lt hi hj hch)]
  obtain ⟨h1, h2, h3⟩ := decode_flatIdx (i := i) hj hch
  simp only [Option.map_some', h1, h2, h3]

lemma conv2d_ok_inv [Mul α] [Add α] [Zero α] {input kernel out : Volume α}
    (h : conv2d input kernel = some (Except.ok out)) :
    ∃ ro co, input.channels = kernel.channels ∧
      kernel_centre kernel.rows kernel.cols = some (ro, co) ∧
      ro * 2 ≤ input.rows ∧ co * 2 ≤ input.cols ∧
      0 < input.rows - ro * 2 ∧ 0 < input.cols - co * 2 ∧
      out = ⟨input.rows - ro * 2, input.cols - co * 2, input.channels,
             convData input kernel (input.rows - ro * 2) (input.cols - co * 2)⟩ := by
  unfold conv2d at h
  split at h
  · exact absurd h (by simp)
  · rename_i hne
    split at h
    · exact absurd h (by simp)
    · rename_i ro co hcen
      split at h
      · exact absurd h (by simp)
      · rename_i hno
        split at h
        · rename_i hpos
          refine ⟨ro, co, by omega, hcen, by omega, by omega, hpos.1, hpos.2, ?_⟩
          simp only [Option.some.injEq, Except.ok.injEq] at h
          exact h.symm
        · exact absurd h (by simp)

lemma conv2d_ok_WF [Mul α] [Add α] [Zero α] {input kernel out : Volume α}
    (h : conv2d input kernel = some (Except.ok out)) : out.WF := by
  obtain ⟨ro, co, -, -, -, -, -, -, hout⟩ := conv2d_ok_inv h
  subst hout
  exact convData_length input kernel _ _

/-- Every in-range element of a successful `conv2d` result is `outElem`:
the window reduction at window positions, `0` elsewhere. -/
lemma conv2d_ok_el [Mul α] [Add α] [Zero α] {input kernel out : Volume α}
    (h : conv2d input kernel = some (Except.ok out))
    {i j ch : Nat} (hi : i < out.rows) (hj : j < out.cols) (hch : ch < out.channels) :
    out.el i j ch = outElem input kernel i j ch := by
  obtain ⟨ro, co, -, -, -, -, -, -, hout⟩ := conv2d_ok_inv h
  subst hout
  dsimp only at hi hj hch ⊢
  simp only [Volume.el, Volume.flatIdx]
  rw [convData_getElem? hi hj hch]
  rfl

lemma mapIdxFrom_getElem? (f : Nat → α → α) (n : Nat) (l : List α) (p : Nat) :
    (mapIdxFrom f n l)[p]? = (l[p]?).map (f (n + p)) := by
  induction l generalizing n p with
  | nil => simp [mapIdxFrom]
  | cons a l ih =>
    cases p with
    | zero => simp [mapIdxFrom]
    | succ q =>
      simp only [mapIdxFrom, List.getElem?_cons_succ]
      rw [ih]
      have : n + 1 + q = n + (q + 1) := by omega
      rw [this]

lemma conv2d_inplace_ok_inv [Mul α] [Add α] [Zero α] {input kernel final : Volume α}
    (h : conv2d_inplace input kernel = some (Except.ok (), final)) :
    ∃ data centre, conv2d input kernel = some (Except.ok data) ∧
      kernel_centre kernel.rows kernel.cols = some centre ∧
      final = inplaceWrite input data centre := by
  unfold conv2d_inplace at h
  split at h
  · exact absurd h (by simp)
  · exact absurd h (by simp)
  · rename_i data hdata
    split at h
    · exact absurd h (by simp)
    · rename_i centre hcen
      simp only [Option.some.injEq, Prod.mk.injEq] at h
      exact ⟨data, centre, hdata, hcen, h.2.symm⟩

lemma kernel_centre_some_pos {rows cols : Nat} {x : Nat × Nat}
    (h : kernel_centre rows cols = some x) : 0 < rows ∧ 0 < cols := by
  refine ⟨?_, ?_⟩
  · rcases Nat.eq_zero_or_pos rows with h0 | h0
    · subst h0
      simp [kernel_centre, centreOffset] at h
    · exact h0
  · rcases Nat.eq_zero_or_pos cols with h0 | h0
    · subst h0
      rcases hro : centreOffset rows with - | v
      · simp [kernel_centre, hro] at h
      · simp [kernel_centre, hro, centreOffset] at h
    · exact h0

lemma Volume.get_eq_el [Zero α] {v : Volume α} (hWF : v.WF) {i j ch : Nat}
    (hi : i < v.rows) (hj : j < v.cols) (hch : ch < v.channels) :
    v.get i j ch = some (v.el i j ch) := by
  unfold Volume.get Volume.el
  rw [if_pos ⟨hi, hj, hch⟩]
  have hlt : v.flatIdx i j ch < v.data.length := by
    rw [hWF]; exact flatIdx_lt hi hj hch
  rw [List.getElem?_eq_getElem hlt]
  rfl

lemma Volume.get_none {v : Volume α} {i j ch : Nat}
    (h : ¬(i < v.rows ∧ j < v.cols ∧ ch < v.channels)) : v.get i j ch = none := by
  unfold Volume.get
  rw [if_neg h]

/-- Elementwise description of the write-back loop: border elements keep
their pre-call value, every other element takes `data.get(centred)` when in
bounds and keeps its value otherwise. -/
lemma inplaceWrite_el [Zero α] {input data : Volume α} (hWF : input.WF)
    (centre : Nat × Nat) {r c ch : Nat}
    (hr : r < input.rows) (hc : c < input.cols) (hch : ch < input.channels) :
    (inplaceWrite input data centre).el r c ch =
      (if r < centre.1 ∨ c < centre.2 then input.el r c ch
       else
         (match data.get (r - centre.1) (c - centre.2) ch with
          | some d => d
          | none => input.el r c ch)) := by
  have hlt : (r * input.cols + c) * input.channels + ch < input.data.length := by
    rw [hWF]; exact flatIdx_lt hr hc hch
  obtain ⟨h1, h2, h3⟩ := decode_flatIdx (i := r) hc hch
  simp only [inplaceWrite, Volume.el, Volume.flatIdx]
  rw [mapIdxFrom_getElem?, List.getElem?_eq_getElem hlt]
  simp only [Option.map_some', Option.getD_some, Nat.zero_add]
  unfold inplaceStep
  rw [h1, h2, h3]

/-! ### Claim theorems -/

/-- Claim C3: on the 5×5 binary test image with the 3×3 cross kernel,
`conv2d` returns the 3×3 volume with rows [4,3,4], [2,4,3], [2,3,4], and
`conv2d_inplace` succeeds, placing that block at rows 1–3, columns 1–3,
while rows 0 and 4 and columns 0 and 4 keep their original values. -/
theorem conv2d_worked_example :
    conv2d input5 kern3 = some (Except.ok out3) ∧
    conv2d_inplace input5 kern3 = some (Except.ok (), inplace5) ∧
    (∀ i, i < 3 → ∀ j, j < 3 → inplace5.el (i + 1) (j + 1) 0 = out3.el i j 0) ∧
    (∀ j, j < 5 → inplace5.el 0 j 0 = input5.el 0 j 0 ∧
      inplace5.el 4 j 0 = input5.el 4 j 0 ∧ inplace5.el j 0 0 = input5.el j 0 0 ∧
      inplace5.el j 4 0 = input5.el j 4 0) :=
  ⟨rfl, rfl, by decide, by decide⟩

/-- Claim C2 (code bug): the spec requires `InvalidDimensions` whenever the
computed output extent is ≤ 0 along an axis, with no panic. The code only
produces `InvalidDimensions` when the `usize` subtraction lands exactly on 0
(here a 2-row input with a 3-row kernel); when the computed extent would be
negative (here a 1×1 input with a 3×3 kernel), the `usize` subtraction
`self.shape()[0] - row_offset * 2` overflows and the call panics instead of
returning a `Result` (modelled by `none`), on both entry points. -/
theorem conv2d_oversized_kernel_panics :
    conv2d input1 kern3 = none ∧
    conv2d_inplace input1 kern3 = none ∧
    conv2d input2x5 kern3 = some (Except.error Error.invalidDimensions) ∧
    conv2d_inplace input2x5 kern3 = some (Except.error Error.invalidDimensions, input2x5) :=
  ⟨rfl, rfl, rfl, rfl⟩

/-- Claim C6: whenever the kernel's channel count differs from the input's,
both `conv2d` and `conv2d_inplace` return `ChannelDimensionMismatch`
(regardless of spatial extents), and the in-place buffer is unchanged. -/
theorem channel_mismatch_error [Mul α] [Add α] [Zero α] {input kernel : Volume α}
    (h : input.channels ≠ kernel.channels) :
    conv2d input kernel = some (Except.error Error.channelDimensionMismatch) ∧
    conv2d_inplace input kernel =
      some (Except.error Error.channelDimensionMismatch, input) := by
  have h1 : conv2d input kernel = some (Except.error Error.channelDimensionMismatch) := by
    unfold conv2d
    rw [if_pos h]
  refine ⟨h1, ?_⟩
  unfold conv2d_inplace
  rw [h1]

/-- Witness for C6 at a concrete input: a 1-channel image against a
2-channel kernel. -/
theorem channel_mismatch_error_witness :
    conv2d input5 kern2ch = some (Except.error Error.channelDimensionMismatch) ∧
    conv2d_inplace input5 kern2ch =
      some (Except.error Error.channelDimensionMismatch, input5) :=
  @channel_mismatch_error Nat _ _ _ input5 kern2ch (by decide)

/-- Claim C5: when `conv2d_inplace` returns an error, the buffer is exactly
its pre-call contents and the error is the one `conv2d` returns on the same
arguments. -/
theorem conv2d_inplace_error_atomic [Mul α] [Add α] [Zero α]
    {input kernel final : Volume α} {e : Error}
    (h : conv2d_inplace input kernel = some (Except.error e, final)) :
    final = input ∧ conv2d input kernel = some (Except.error e) := by
  unfold conv2d_inplace at h
  split at h
  · exact absurd h (by simp)
  · rename_i e2 he2
    simp only [Option.some.injEq, Prod.mk.injEq, Except.error.injEq] at h
    rw [he2, h.1, h.2]
    exact ⟨rfl, rfl⟩
  · split at h
    · exact absurd h (by simp)
    · exact absurd h (by simp)

/-- Witness for C5 at a concrete input: the channel-mismatch failure leaves
the buffer untouched and propagates exactly the `conv2d` error. -/
theorem conv2d_inplace_error_atomic_witness :
    input5 = input5 ∧
    conv2d input5 kern2ch = some (Except.error Error.channelDimensionMismatch) :=
  @conv2d_inplace_error_atomic Nat _ _ _ input5 kern2ch input5
    Error.channelDimensionMismatch rfl

/-- Claim C7: a successful `conv2d` returns a volume of shape exactly
`(input.rows - 2*ro, input.cols - 2*co, input.channels)` where `(ro, co)` is
the kernel centre; the subtractions do not truncate (`ro*2 ≤ input.rows`,
`co*2 ≤ input.cols`). -/
theorem conv2d_ok_shape [Mul α] [Add α] [Zero α] {input kernel out : Volume α} {ro co : Nat}
    (hcen : kernel_centre kernel.rows kernel.cols = some (ro, co))
    (hok : conv2d input kernel = some (Except.ok out)) :
    ro * 2 ≤ input.rows ∧ co * 2 ≤ input.cols ∧
    out.rows = input.rows - ro * 2 ∧ out.cols = input.cols - co * 2 ∧
    out.channels = input.channels := by
  obtain ⟨ro2, co2, -, hcen2, hb1, hb2, -, -, hout⟩ := conv2d_ok_inv hok
  rw [hcen] at hcen2
  simp only [Option.some.injEq, Prod.mk.injEq] at hcen2
  obtain ⟨e1, e2⟩ := hcen2
  subst e1
  subst e2
  subst hout
  exact ⟨hb1, hb2, rfl, rfl, rfl⟩

/-- Witness for C7: the 5×5 test image with the 3×3 kernel (centre (1,1))
gives the 3×3 result shape. -/
theorem conv2d_ok_shape_witness :
    1 * 2 ≤ input5.rows ∧ 1 * 2 ≤ input5.cols ∧ out3.rows = input5.rows - 1 * 2 ∧
    out3.cols = input5.cols - 1 * 2 ∧ out3.channels = input5.channels :=
  @conv2d_ok_shape Nat _ _ _ input5 kern3 out3 1 1 rfl rfl

/-- Claim C8: for positive axis sizes, `kernel_centre` returns (without
panicking) `axis / 2 - (1 if axis even else 0)` per axis under integer floor
division; in particular offset 1 for size 3 and offset 0 for size 2. -/
theorem kernel_centre_spec {rows cols : Nat} (hr : 0 < rows) (hc : 0 < cols) :
    kernel_centre rows cols =
      some (rows / 2 - (if rows % 2 = 0 then 1 else 0),
            cols / 2 - (if cols % 2 = 0 then 1 else 0)) ∧
    kernel_centre 3 3 = some (1, 1) ∧ kernel_centre 2 2 = some (0, 0) :=
  ⟨kernel_centre_pos hr hc, rfl, rfl⟩

/-- Witness for C8 at the concrete sizes 5 × 4. -/
theorem kernel_centre_spec_witness :
    kernel_centre 5 4 =
      some (5 / 2 - (if 5 % 2 = 0 then 1 else 0),
            4 / 2 - (if 4 % 2 = 0 then 1 else 0)) ∧
    kernel_centre 3 3 = some (1, 1) ∧ kernel_centre 2 2 = some (0, 0) :=
  @kernel_centre_spec 5 4 (by decide) (by decide)

/-- Claim C9: `conv2d` is a pure function of its two arguments — equal
arguments give equal results (same `Ok` volume or same error); in this
embedding the call cannot mutate `input` or `kernel`, which are passed and
preserved by value. -/
theorem conv2d_deterministic [Mul α] [Add α] [Zero α]
    (input kernel input2 kernel2 : Volume α)
    (h1 : input = input2) (h2 : kernel = kernel2) :
    conv2d input kernel = conv2d input2 kernel2 := by
  rw [h1, h2]

/-- Witness for C9: two calls on the test image agree. -/
theorem conv2d_deterministic_witness :
    conv2d input5 kern3 = conv2d input5 kern3 :=
  conv2d_deterministic input5 kern3 input5 kern3 rfl rfl

/-- Claim C1 is false as stated for even kernels: with the 2×2 ones kernel on
a 2×2 input, `conv2d` succeeds with a 2×2 output (4 elements) but ndarray
yields only the single window at (0,0). Position (1,1) is an output position
yet no kernel-sized window is processed there — the output element keeps its
zero fill while the claimed windowed reduction gives 4. -/
theorem conv2d_window_count_counterexample :
    conv2d input2x2 kern2 = some (Except.ok outSmall) ∧
    1 < outSmall.rows ∧ 1 < outSmall.cols ∧ ¬ fits input2x2 kern2 1 1 ∧
    outSmall.el 1 1 0 = 0 ∧ windowSum input2x2 kern2 1 1 0 = 4 :=
  ⟨rfl, by decide, by decide, by decide, rfl, rfl⟩

/-- Claim C1 (amended): restricted to kernels with odd row and column
extents, a successful `conv2d` processes exactly the window positions
`(i, j)` with `i < out.rows` and `j < out.cols` (one window per output
element, top-left aligned at input (0,0), stride 1), and each such output
element is the elementwise window/kernel product summed over the row and
column axes only, one scalar per channel. -/
theorem conv2d_odd_kernel_windows [Mul α] [Add α] [Zero α] {input kernel out : Volume α}
    (hok : conv2d input kernel = some (Except.ok out))
    (hrodd : kernel.rows % 2 = 1) (hcodd : kernel.cols % 2 = 1) :
    (∀ i j, fits input kernel i j ↔ (i < out.rows ∧ j < out.cols)) ∧
    (∀ i j ch, i < out.rows → j < out.cols → ch < out.channels →
      out.el i j ch = windowSum input kernel i j ch) := by
  obtain ⟨ro, co, hchan, hcen, hb1, hb2, hp1, hp2, hout⟩ := conv2d_ok_inv hok
  rw [kernel_centre_pos (by omega) (by omega)] at hcen
  simp only [Option.some.injEq, Prod.mk.injEq] at hcen
  have hkr : kernel.rows = 2 * ro + 1 := by
    have h := hcen.1
    simp [hrodd] at h
    omega
  have hkc : kernel.cols = 2 * co + 1 := by
    have h := hcen.2
    simp [hcodd] at h
    omega
  subst hout
  constructor
  · intro i j
    unfold fits
    dsimp only
    rw [hkr, hkc]
    omega
  · intro i j ch hi hj hch2
    have hel := conv2d_ok_el hok hi hj hch2
    rw [hel]
    unfold outElem
    have hf : fits input kernel i j := by
      unfold fits
      dsimp only at hi hj
      rw [hkr, hkc]
      omega
    rw [if_pos hf]

/-- Witness for C1 at the crate's own test data: the window at (2,2) is a
valid output position, and output (1,1) equals the window reduction, 4. -/
theorem conv2d_odd_kernel_windows_witness :
    (fits input5 kern3 2 2 ↔ (2 < out3.rows ∧ 2 < out3.cols)) ∧
    out3.el 1 1 0 = windowSum input5 kern3 1 1 0 ∧
    windowSum input5 kern3 1 1 0 = 4 := by
  have h := @conv2d_odd_kernel_windows Nat _ _ _ input5 kern3 out3 rfl rfl rfl
  exact ⟨h.1 2 2, h.2 1 1 0 (by decide) (by decide) (by decide), by decide⟩

/-- Claim C4: after a successful `conv2d_inplace`, elements above or left of
the kernel centre are unchanged, elements whose shifted index falls outside
the separately computed `conv2d` result are unchanged, and every remaining
interior element equals the corresponding result element. -/
theorem conv2d_inplace_placement [Mul α] [Add α] [Zero α]
    {input kernel final res : Volume α} {cr cc : Nat}
    (hWF : input.WF)
    (hip : conv2d_inplace input kernel = some (Except.ok (), final))
    (hres : conv2d input kernel = some (Except.ok res))
    (hcen : kernel_centre kernel.rows kernel.cols = some (cr, cc))
    {r c ch : Nat} (hr : r < input.rows) (hc : c < input.cols)
    (hch : ch < input.channels) :
    ((r < cr ∨ c < cc) → final.el r c ch = input.el r c ch) ∧
    (cr ≤ r → cc ≤ c →
      ((r - cr < res.rows ∧ c - cc < res.cols ∧ ch < res.channels) →
        final.el r c ch = res.el (r - cr) (c - cc) ch) ∧
      (¬(r - cr < res.rows ∧ c - cc < res.cols ∧ ch < res.channels) →
        final.el r c ch = input.el r c ch)) := by
  obtain ⟨data, centre, hdata, hcen2, hfin⟩ := conv2d_inplace_ok_inv hip
  rw [hres] at hdata
  simp only [Option.some.injEq, Except.ok.injEq] at hdata
  subst hdata
  rw [hcen] at hcen2
  simp only [Option.some.injEq] at hcen2
  subst hcen2
  subst hfin
  rw [inplaceWrite_el hWF (cr, cc) hr hc hch]
  constructor
  · intro hb
    rw [if_pos hb]
  · intro h1 h2
    rw [if_neg (by omega)]
    constructor
    · intro hin
      rw [Volume.get_eq_el (conv2d_ok_WF hres) hin.1 hin.2.1 hin.2.2]
    · intro hout2
      rw [Volume.get_none hout2]

/-- Witness for C4 on the crate's in-place test: interior element (2,2) holds
result (1,1); border element (0,3) and far-edge element (2,4) are unchanged. -/
theorem conv2d_inplace_placement_witness :
    inplace5.el 2 2 0 = out3.el 1 1 0 ∧
    inplace5.el 0 3 0 = input5.el 0 3 0 ∧
    inplace5.el 2 4 0 = input5.el 2 4 0 := by
  have h1 := @conv2d_inplace_placement Nat _ _ _ input5 kern3 inplace5 out3 1 1
    (by decide) rfl rfl rfl 2 2 0 (by decide) (by decide) (by decide)
  have h2 := @conv2d_inplace_placement Nat _ _ _ input5 kern3 inplace5 out3 1 1
    (by decide) rfl rfl rfl 0 3 0 (by decide) (by decide) (by decide)
  have h3 := @conv2d_inplace_placement Nat _ _ _ input5 kern3 inplace5 out3 1 1
    (by decide) rfl rfl rfl 2 4 0 (by decide) (by decide) (by decide)
  exact ⟨(h1.2 (by decide) (by decide)).1 (by decide),
    h2.1 (Or.inl (by decide)),
    (h3.2 (by decide) (by decide)).2 (by decide)⟩

/-- Claim C10: for a successful `conv2d` with an even kernel row extent, the
output has `input.rows - kernel.rows + 2` rows but the last row keeps its
zero initialisation (there is no window for it); symmetrically for the last
column when the kernel column extent is even. -/
theorem conv2d_even_kernel_border_zero [Mul α] [Add α] [Zero α]
    {input kernel out : Volume α}
    (hok : conv2d input kernel = some (Except.ok out)) :
    (kernel.rows % 2 = 0 →
      (out.rows : Int) = (input.rows : Int) - (kernel.rows : Int) + 2 ∧
      ∀ j ch, j < out.cols → ch < out.channels → out.el (out.rows - 1) j ch = 0) ∧
    (kernel.cols % 2 = 0 →
      (out.cols : Int) = (input.cols : Int) - (kernel.cols : Int) + 2 ∧
      ∀ i ch, i < out.rows → ch < out.channels → out.el i (out.cols - 1) ch = 0) := by
  obtain ⟨ro, co, hchan, hcen, hb1, hb2, hp1, hp2, hout⟩ := conv2d_ok_inv hok
  obtain ⟨h0r, h0c⟩ := kernel_centre_some_pos hcen
  rw [kernel_centre_pos h0r h0c] at hcen
  simp only [Option.some.injEq, Prod.mk.injEq] at hcen
  constructor
  · intro heven
    have hkr : kernel.rows = 2 * ro + 2 := by
      have h := hcen.1
      simp [heven] at h
      omega
    subst hout
    dsimp only
    refine ⟨by omega, ?_⟩
    intro j ch2 hj hch2
    have hi : input.rows - ro * 2 - 1 < input.rows - ro * 2 := by omega
    have hel := conv2d_ok_el hok hi hj hch2
    rw [hel]
    unfold outElem
    have hnf : ¬ fits input kernel (input.rows - ro * 2 - 1) j := by
      unfold fits
      rw [hkr]
      omega
    rw [if_neg hnf]
  · intro heven
    have hkc : kernel.cols = 2 * co + 2 := by
      have h := hcen.2
      simp [heven] at h
      omega
    subst hout
    dsimp only
    refine ⟨by omega, ?_⟩
    intro i ch2 hi hch2
    have hj : input.cols - co * 2 - 1 < input.cols - co * 2 := by omega
    have hel := conv2d_ok_el hok hi hj hch2
    rw [hel]
    unfold outElem
    have hnf : ¬ fits input kernel i (input.cols - co * 2 - 1) := by
      unfold fits
      rw [hkc]
      omega
    rw [if_neg hnf]

/-- Witness for C10: the 2×2 ones kernel on the 3×3 input gives a 3×3 output
whose last row and last column are zero. -/
theorem conv2d_even_kernel_border_zero_witness :
    (outEven.rows : Int) = (input3x3.rows : Int) - (kern2.rows : Int) + 2 ∧
    outEven.el (outEven.rows - 1) 1 0 = 0 ∧
    outEven.el 1 (outEven.cols - 1) 0 = 0 := by
  have h := @conv2d_even_kernel_border_zero Nat _ _ _ input3x3 kern2 outEven rfl
  exact ⟨(h.1 rfl).1, (h.1 rfl).2 1 0 (by decide) (by decide),
    (h.2 rfl).2 1 0 (by decide) (by decide)⟩

end NVision
